import Mathlib

set_option linter.all false

/-! Shallow embedding of `hooks/mypy_sync.py`.

Python strings are modelled as `List Char`; one entry of a `List Line` is one
line of a text file (newline characters included, as produced by Python file
iteration).  The four-state line scanner `UpdateDependencies`, the pinning
loop of `do`, the requirements parser of `main` and the in-place output path
are each translated directly from the source. -/

abbrev Line : Type := List Char

/-- Whitespace characters removed by the Python `str.strip` method (ASCII range). -/
def isWs (c : Char) : Bool :=
  c = ' ' || c = '\t' || c = '\n' || c = '\r' || c = '\x0b' || c = '\x0c'

/-- Python `str.lstrip()`: drop leading whitespace. -/
def pyLstrip (l : Line) : Line := l.dropWhile isWs

/-- Python `str.rstrip()`: drop trailing whitespace. -/
def pyRstrip : Line → Line
  | [] => []
  | c :: rest =>
    match pyRstrip rest with
    | [] => if isWs c then [] else [c]
    | d :: ds => c :: d :: ds

/-- Python `str.strip()`: drop whitespace on both ends. -/
def pyStrip (l : Line) : Line := pyRstrip (pyLstrip l)

/-- Python `str.startswith(p)` as `startsWith p s`. -/
def startsWith : Line → Line → Bool
  | [], _ => true
  | _ :: _, [] => false
  | p :: ps, c :: cs => p = c && startsWith ps cs

/-- The line content `"additional_dependencies:"` that flips the scanner from
`pre` to `in-deps`. -/
def depHeader : Line := "additional_dependencies:".data

/-- Translation of `self.indent = " " * sum(1 for c in line.rstrip() if c == " ")`. -/
def indentOf (l : Line) : Line := List.replicate ((pyRstrip l).count ' ') ' '

/-- Formatting of an emitted item line: the recorded indent, two spaces, a
hyphen and a space, the dependency in double quotes, and a newline. -/
def fmtItem (indent dep : Line) : Line := indent ++ "  - \"".data ++ dep ++ "\"\n".data

/-- The four values of `self.state` in `UpdateDependencies`. -/
inductive UDState
  | pre
  | inDeps
  | skipOldDeps
  | post
  deriving DecidableEq

/-- The mutable state of an `UpdateDependencies` object: its `new_deps`
argument, `self.state` and `self.indent`. -/
structure UD where
  new_deps : List Line
  state : UDState
  indent : Line
  deriving DecidableEq

/-- The initial object built by `UpdateDependencies.__init__`. -/
def initUD (nd : List Line) : UD := ⟨nd, UDState.pre, []⟩

/-- Translation of `UpdateDependencies.handle`: one line in, the updated object
and the yielded lines out. -/
def handle (u : UD) (line : Line) : UD × List Line :=
  match u.state with
  | UDState.pre =>
    if pyStrip line = depHeader then
      ({ u with state := UDState.inDeps, indent := indentOf line }, [line])
    else (u, [line])
  | UDState.inDeps =>
    ({ u with state := UDState.skipOldDeps }, u.new_deps.map (fmtItem u.indent))
  | UDState.skipOldDeps =>
    if startsWith (u.indent ++ "  -".data) line then (u, [])
    else ({ u with state := UDState.post }, [line])
  | UDState.post => (u, [line])

/-- Feeding every line of a file through `handle`, as
`UpdateDependencies.__iter__` does. -/
def runUD (u : UD) : List Line → List Line
  | [] => []
  | l :: ls => (handle u l).2 ++ runUD (handle u l).1 ls

/-- The whole textual pass: a fresh `UpdateDependencies` run over all lines. -/
def updateDependencies (nd : List Line) (lines : List Line) : List Line :=
  runUD (initUD nd) lines

/-- Translation of `dep.split("=", 1)[0]`: the part of a specifier before its
first `=` character. -/
def depName (dep : Line) : Line := dep.takeWhile (fun c => c != '=')

/-- Python dict membership plus subscript on `package_versions`, a lookup by
exact key equality. -/
def lookupPV : List (Line × Line) → Line → Option Line
  | [], _ => none
  | (k, v) :: rest, name => if k = name then some v else lookupPV rest name

/-- The printed line `f"{name} not currently installed, skipping"` with the
newline added by `print`. -/
def diagMsg (name : Line) : Line := name ++ " not currently installed, skipping\n".data

/-- One iteration of the `for dep in dependencies` loop of `do`: the new
specifier and the diagnostics it prints. -/
def pinOne (pv : List (Line × Line)) (dep : Line) : Line × List Line :=
  match lookupPV pv (depName dep) with
  | some v => (depName dep ++ "==".data ++ v, [])
  | none => (dep, [diagMsg (depName dep)])

/-- The whole `new_deps` loop of `do`: the new specifier list and the
diagnostic lines printed, in order. -/
def buildNewDeps (pv : List (Line × Line)) : List Line → List Line × List Line
  | [] => ([], [])
  | d :: ds =>
    ((pinOne pv d).1 :: (buildNewDeps pv ds).1, (pinOne pv d).2 ++ (buildNewDeps pv ds).2)

/-- Behaviour of `do` after the structured extraction: for a given extracted dependency
list and version map, the lines written to `outfp` and the diagnostics
printed. -/
def doRewrite (pv : List (Line × Line)) (deps : List Line) (cfg : List Line) :
    List Line × List Line :=
  (updateDependencies (buildNewDeps pv deps).1 cfg, (buildNewDeps pv deps).2)

/-- In non-in-place mode `do(sys.stdout, ...)` is called, and the diagnostics
are printed (to `sys.stdout`) while `new_deps` is built, before
`outfp.writelines` runs: standard output carries the diagnostics followed by
the rewritten file. -/
def stdoutNonInPlace (pv : List (Line × Line)) (deps : List Line) (cfg : List Line) :
    List Line :=
  (doRewrite pv deps cfg).2 ++ (doRewrite pv deps cfg).1

/-- The match of `re.match(r"^(\S+)\s*==\s*(\S+)$", line)` with the Python
greedy group semantics: `some (name, version)` on a match, `none` otherwise.
The recursion prefers the longer first group, as the greedy name group does. -/
def reqExtract : Line → Option (Line × Line)
  | [] => none
  | c :: rest =>
    if isWs c then none
    else
      match reqExtract rest with
      | some (a, b) => some (c :: a, b)
      | none =>
        match rest.dropWhile isWs with
        | '=' :: '=' :: rest2 =>
          let b := rest2.dropWhile isWs
          if !b.isEmpty && b.all (fun ch => !isWs ch) then some ([c], b) else none
        | _ => none

/-- Translation of `line.startswith("#") or line == ""` on the stripped line:
the lines the requirements loop skips. -/
def skipCond (s : Line) : Bool := startsWith "#".data s || s.isEmpty

/-- The message of the raised ValueError, naming the stripped offending line. -/
def errMsg (s : Line) : Line := "unable to parse requirement: ".data ++ s

/-- Python dict assignment `package_versions[name] = version`: replace an
existing binding in place, append a fresh one at the end. -/
def insertPV : List (Line × Line) → Line → Line → List (Line × Line)
  | [], k, v => [(k, v)]
  | (k2, v2) :: rest, k, v =>
    if k2 = k then (k, v) :: rest else (k2, v2) :: insertPV rest k v

/-- The inner `for line in open(req)` loop of the `--no-install` branch. -/
def parseReqLines (acc : List (Line × Line)) : List Line → Except Line (List (Line × Line))
  | [] => Except.ok acc
  | l :: ls =>
    if skipCond (pyStrip l) then parseReqLines acc ls
    else
      match reqExtract (pyStrip l) with
      | some (n, v) => parseReqLines (insertPV acc n v) ls
      | none => Except.error (errMsg (pyStrip l))

/-- The outer `for req in opts.requirements` loop; a raised `ValueError`
propagates and ends the run. -/
def parseReqFiles (acc : List (Line × Line)) : List (List Line) → Except Line (List (Line × Line))
  | [] => Except.ok acc
  | f :: fs =>
    match parseReqLines acc f with
    | Except.error e => Except.error e
    | Except.ok acc2 => parseReqFiles acc2 fs

/-- Direct-parse (`--no-install` with `--requirements`) version resolution. -/
def parseRequirements (files : List (List Line)) : Except Line (List (Line × Line)) :=
  parseReqFiles [] files

/-- Behaviour of `main` in direct-parse mode: resolve versions from the requirements
files, then run `do`; the structured extraction outcome of the configuration
file is passed in as `extract`.  An error anywhere aborts before any output
exists. -/
def runNoInstall (files : List (List Line)) (extract : Except Line (List Line))
    (cfg : List Line) : Except Line (List Line × List Line) :=
  match parseRequirements files with
  | Except.error e => Except.error e
  | Except.ok pv =>
    match extract with
    | Except.error e => Except.error e
    | Except.ok deps => Except.ok (doRewrite pv deps cfg)

/-- Whether an `Except` outcome is the error case. -/
def isErr : Except α β → Bool
  | Except.error _ => true
  | Except.ok _ => false

/-- File-system events performed by the in-place branch of `main`. -/
inductive FSEvent
  | createTemp
  | writeTemp (content : List Line)
  | copyTempToConfig
  | removeTemp
  deriving DecidableEq

/-- The two files the in-place branch can touch: the configuration file and
the `NamedTemporaryFile` (absent when not created or already deleted). -/
structure FS where
  config : List Line
  temp : Option (List Line)
  deriving DecidableEq

/-- Effect of one event on the file system. -/
def applyEvent (fs : FS) : FSEvent → FS
  | FSEvent.createTemp => { fs with temp := some [] }
  | FSEvent.writeTemp c => { fs with temp := fs.temp.map (fun t => t ++ c) }
  | FSEvent.copyTempToConfig =>
    match fs.temp with
    | some c => { fs with config := c }
    | none => fs
  | FSEvent.removeTemp => { fs with temp := none }

/-- Effect of a sequence of events. -/
def applyTrace (fs : FS) : List FSEvent → FS
  | [] => fs
  | e :: es => applyTrace (applyEvent fs e) es

/-- Event trace of `main` with `--in-place`.  A resolver failure (pin-parse
error or failed install) happens before the `with tempfile.NamedTemporaryFile`
block, so no temp file exists.  A structured-extraction failure inside `do`
(missing repo entry or missing key) raises before any line is written; the
`with` block still deletes the temp file on the way out and `shutil.copy`
never runs.  On success the fully rewritten text is written and flushed, then
copied over the configuration file, then the temp file is deleted. -/
def inPlaceTrace (resolver : Except Line (List (Line × Line)))
    (extract : Except Line (List Line)) (cfg : List Line) : List FSEvent :=
  match resolver with
  | Except.error _ => []
  | Except.ok pv =>
    match extract with
    | Except.error _ => [FSEvent.createTemp, FSEvent.removeTemp]
    | Except.ok deps =>
      [FSEvent.createTemp, FSEvent.writeTemp (doRewrite pv deps cfg).1,
       FSEvent.copyTempToConfig, FSEvent.removeTemp]

/-- Final file-system state of an in-place run started on `cfg`. -/
def inPlaceRun (resolver : Except Line (List (Line × Line)))
    (extract : Except Line (List Line)) (cfg : List Line) : FS :=
  applyTrace ⟨cfg, none⟩ (inPlaceTrace resolver extract cfg)

/-- Whether the run hits any fatal condition (resolver failure or
structured-extraction failure). -/
def fatalRun (resolver : Except Line (List (Line × Line)))
    (extract : Except Line (List Line)) : Bool :=
  match resolver, extract with
  | Except.error _, _ => true
  | Except.ok _, Except.error _ => true
  | Except.ok _, Except.ok _ => false

theorem startsWith_self_app (p r : Line) : startsWith p (p ++ r) = true := by
  induction p with
  | nil => rfl
  | cons c cs ih => simp [startsWith, ih]

theorem startsWith_app_both (a p l : Line) : startsWith (a ++ p) (a ++ l) = startsWith p l := by
  induction a with
  | nil => rfl
  | cons c cs ih => simp [startsWith, ih]

theorem pyRstrip_append (x y : Line) :
    pyRstrip (x ++ y) = if pyRstrip y = [] then pyRstrip x else x ++ pyRstrip y := by
  induction x with
  | nil =>
    by_cases h : pyRstrip y = []
    · simp [h, pyRstrip]
    · simp [h]
  | cons c x ih =>
    by_cases h : pyRstrip y = []
    · rw [if_pos h]
      rw [if_pos h] at ih
      show (match pyRstrip (x ++ y) with
        | [] => if isWs c then [] else [c]
        | d :: ds => c :: d :: ds) = pyRstrip (c :: x)
      rw [ih]
      rfl
    · rw [if_neg h]
      rw [if_neg h] at ih
      show (match pyRstrip (x ++ y) with
        | [] => if isWs c then [] else [c]
        | d :: ds => c :: d :: ds) = (c :: x) ++ pyRstrip y
      rw [ih]
      cases hx : x ++ pyRstrip y with
      | nil => exact absurd (List.append_eq_nil.mp hx).2 h
      | cons d ds => exact congrArg (c :: ·) hx.symm

theorem pyRstrip_of_strip (l t : Line) (ht : pyStrip l = t) (htne : t ≠ []) :
    pyRstrip l = l.takeWhile isWs ++ t := by
  have hd : pyRstrip (l.dropWhile isWs) = t := ht
  calc pyRstrip l = pyRstrip (l.takeWhile isWs ++ l.dropWhile isWs) := by
        rw [List.takeWhile_append_dropWhile _ _]
    _ = l.takeWhile isWs ++ t := by rw [pyRstrip_append, hd, if_neg htne]

theorem takeWhile_space_of_all (l : Line)
    (h : (l.takeWhile isWs).all (fun c => c == ' ') = true) :
    l.takeWhile (fun c => c == ' ') = l.takeWhile isWs := by
  induction l with
  | nil => rfl
  | cons c cs ih =>
    cases hc : isWs c with
    | true =>
      rw [List.takeWhile_cons _ _ _, hc, if_pos rfl] at h
      rw [List.all_cons] at h
      have hc1 : (c == ' ') = true := (Bool.and_eq_true _ _).mp h |>.1
      have hrest := (Bool.and_eq_true _ _).mp h |>.2
      rw [List.takeWhile_cons _ _ _, List.takeWhile_cons _ _ _, hc, hc1]
      simp [ih hrest]
    | false =>
      have hcsp : (c == ' ') = false := by
        cases hcc : c == ' ' with
        | false => rfl
        | true =>
          have hce : c = ' ' := eq_of_beq hcc
          rw [hce] at hc
          exact absurd hc (by decide)
      rw [List.takeWhile_cons _ _ _, List.takeWhile_cons _ _ _, hc, hcsp]
      simp

theorem takeWhile_app_all (p : Char → Bool) (a b : Line) (h : ∀ c ∈ a, p c = true) :
    (a ++ b).takeWhile p = a ++ b.takeWhile p := by
  induction a with
  | nil => rfl
  | cons c a ih =>
    rw [List.cons_append, List.takeWhile_cons _ _ _, h c (List.mem_cons_self _ _), if_pos rfl]
    rw [ih (fun x hx => h x (List.mem_cons_of_mem _ hx))]
    rfl

/-! Single-step facts about `handle` and `runUD`. -/

theorem handle_pre_other (u : UD) (l : Line) (hs : u.state = UDState.pre)
    (h : pyStrip l ≠ depHeader) : handle u l = (u, [l]) := by
  simp [handle, hs, h]

theorem handle_pre_header (u : UD) (l : Line) (hs : u.state = UDState.pre)
    (h : pyStrip l = depHeader) :
    handle u l = ({ u with state := UDState.inDeps, indent := indentOf l }, [l]) := by
  simp [handle, hs, h]

theorem runUD_pre_skip (nd : List Line) (i : Line) (ls rest : List Line)
    (h : ∀ l ∈ ls, pyStrip l ≠ depHeader) :
    runUD ⟨nd, UDState.pre, i⟩ (ls ++ rest) = ls ++ runUD ⟨nd, UDState.pre, i⟩ rest := by
  induction ls with
  | nil => rfl
  | cons l ls ih =>
    have hl : pyStrip l ≠ depHeader := h l (List.mem_cons_self _ _)
    have he : handle ⟨nd, UDState.pre, i⟩ l = (⟨nd, UDState.pre, i⟩, [l]) :=
      handle_pre_other _ _ rfl hl
    rw [List.cons_append]
    show (handle ⟨nd, UDState.pre, i⟩ l).2
        ++ runUD (handle ⟨nd, UDState.pre, i⟩ l).1 (ls ++ rest) = _
    rw [he]
    simp only [List.singleton_append, List.cons_append]
    rw [ih (fun x hx => h x (List.mem_cons_of_mem _ hx))]
    rfl

theorem runUD_header (nd : List Line) (i : Line) (h : Line) (rest : List Line)
    (hh : pyStrip h = depHeader) :
    runUD ⟨nd, UDState.pre, i⟩ (h :: rest)
      = h :: runUD ⟨nd, UDState.inDeps, indentOf h⟩ rest := by
  have he : handle ⟨nd, UDState.pre, i⟩ h
      = (⟨nd, UDState.inDeps, indentOf h⟩, [h]) := handle_pre_header _ _ rfl hh
  show (handle ⟨nd, UDState.pre, i⟩ h).2 ++ runUD (handle ⟨nd, UDState.pre, i⟩ h).1 rest = _
  rw [he]
  rfl

theorem runUD_indeps (nd : List Line) (i : Line) (l : Line) (rest : List Line) :
    runUD ⟨nd, UDState.inDeps, i⟩ (l :: rest)
      = nd.map (fmtItem i) ++ runUD ⟨nd, UDState.skipOldDeps, i⟩ rest := rfl

theorem runUD_skip_drop (nd : List Line) (i : Line) (l : Line) (rest : List Line)
    (hl : startsWith (i ++ "  -".data) l = true) :
    runUD ⟨nd, UDState.skipOldDeps, i⟩ (l :: rest)
      = runUD ⟨nd, UDState.skipOldDeps, i⟩ rest := by
  have he : handle ⟨nd, UDState.skipOldDeps, i⟩ l = (⟨nd, UDState.skipOldDeps, i⟩, []) := by
    simp [handle, hl]
  show (handle ⟨nd, UDState.skipOldDeps, i⟩ l).2
      ++ runUD (handle ⟨nd, UDState.skipOldDeps, i⟩ l).1 rest = _
  rw [he]
  rfl

theorem runUD_skip_all (nd : List Line) (i : Line) (ls rest : List Line)
    (h : ∀ l ∈ ls, startsWith (i ++ "  -".data) l = true) :
    runUD ⟨nd, UDState.skipOldDeps, i⟩ (ls ++ rest)
      = runUD ⟨nd, UDState.skipOldDeps, i⟩ rest := by
  induction ls with
  | nil => rfl
  | cons l ls ih =>
    rw [List.cons_append, runUD_skip_drop nd i l (ls ++ rest) (h l (List.mem_cons_self _ _))]
    exact ih (fun x hx => h x (List.mem_cons_of_mem _ hx))

theorem runUD_skip_end (nd : List Line) (i : Line) (t : Line) (ts : List Line)
    (ht : startsWith (i ++ "  -".data) t = false) :
    runUD ⟨nd, UDState.skipOldDeps, i⟩ (t :: ts)
      = t :: runUD ⟨nd, UDState.post, i⟩ ts := by
  have he : handle ⟨nd, UDState.skipOldDeps, i⟩ t = (⟨nd, UDState.post, i⟩, [t]) := by
    simp [handle, ht]
  show (handle ⟨nd, UDState.skipOldDeps, i⟩ t).2
      ++ runUD (handle ⟨nd, UDState.skipOldDeps, i⟩ t).1 ts = _
  rw [he]
  rfl

theorem runUD_post (nd : List Line) (i : Line) (ls : List Line) :
    runUD ⟨nd, UDState.post, i⟩ ls = ls := by
  induction ls with
  | nil => rfl
  | cons l ls ih =>
    show (handle ⟨nd, UDState.post, i⟩ l).2
        ++ runUD (handle ⟨nd, UDState.post, i⟩ l).1 ls = _
    have he : handle ⟨nd, UDState.post, i⟩ l = (⟨nd, UDState.post, i⟩, [l]) := rfl
    rw [he]
    simp [ih]

/-- The shape of one full textual pass over a file whose old list block is
nonempty: lines before the header pass through, the header passes through,
the freshly formatted items replace the old block (whose first line is
consumed by the `in-deps` step and whose remaining lines are dropped by
`skip-old-deps`), and the rest of the file passes through. -/
theorem rewrite_shape (nd pre items tail : List Line) (h : Line)
    (hpre : ∀ l ∈ pre, pyStrip l ≠ depHeader)
    (hh : pyStrip h = depHeader)
    (hitems : ∀ l ∈ items, startsWith (indentOf h ++ "  -".data) l = true)
    (hne : items ≠ [])
    (htail : ∀ t ∈ tail.take 1, startsWith (indentOf h ++ "  -".data) t = false) :
    updateDependencies nd (pre ++ h :: (items ++ tail))
      = pre ++ h :: (nd.map (fmtItem (indentOf h)) ++ tail) := by
  have main : runUD ⟨nd, UDState.inDeps, indentOf h⟩ (items ++ tail)
      = nd.map (fmtItem (indentOf h)) ++ tail := by
    cases items with
    | nil => exact absurd rfl hne
    | cons i0 irest =>
      have hirest : ∀ l ∈ irest, startsWith (indentOf h ++ "  -".data) l = true :=
        fun l hl => hitems l (List.mem_cons_of_mem _ hl)
      rw [List.cons_append, runUD_indeps]
      rw [runUD_skip_all nd (indentOf h) irest tail hirest]
      cases tail with
      | nil => rfl
      | cons t ts =>
        have ht : startsWith (indentOf h ++ "  -".data) t = false := htail t (by simp)
        rw [runUD_skip_end nd (indentOf h) t ts ht, runUD_post]
  show runUD ⟨nd, UDState.pre, []⟩ (pre ++ h :: (items ++ tail)) = _
  rw [runUD_pre_skip nd [] pre _ hpre, runUD_header nd [] h _ hh, main]

/-! Facts about the pinning loop. -/

theorem depName_no_eq (d : Line) : ∀ c ∈ depName d, (c != '=') = true := by
  intro c hc
  unfold depName at hc
  simpa using List.mem_takeWhile_imp hc

theorem depName_pinned (n v : Line) (hn : ∀ c ∈ n, (c != '=') = true) :
    depName (n ++ "==".data ++ v) = n := by
  unfold depName
  rw [List.append_assoc, takeWhile_app_all _ n _ hn]
  simp

theorem pinOne_fst_idem (pv : List (Line × Line)) (d : Line) :
    (pinOne pv (pinOne pv d).1).1 = (pinOne pv d).1 := by
  cases hl : lookupPV pv (depName d) with
  | none => simp [pinOne, hl]
  | some v =>
    have hdn : depName (depName d ++ "==".data ++ v) = depName d :=
      depName_pinned _ _ (depName_no_eq d)
    simp only [pinOne, hl, hdn]

theorem buildNewDeps_fst (pv : List (Line × Line)) (ds : List Line) :
    (buildNewDeps pv ds).1 = ds.map (fun d => (pinOne pv d).1) := by
  induction ds with
  | nil => rfl
  | cons d ds ih => simp [buildNewDeps, ih]

theorem buildNewDeps_length (pv : List (Line × Line)) (ds : List Line) :
    (buildNewDeps pv ds).1.length = ds.length := by
  rw [buildNewDeps_fst]
  exact List.length_map _ _

theorem buildNewDeps_snd (pv : List (Line × Line)) (ds : List Line) :
    (buildNewDeps pv ds).2
      = (ds.filter (fun d => (lookupPV pv (depName d)).isNone)).map
          (fun d => diagMsg (depName d)) := by
  induction ds with
  | nil => rfl
  | cons d ds ih =>
    cases hl : lookupPV pv (depName d) with
    | none => simp [buildNewDeps, pinOne, hl, ih]
    | some v => simp [buildNewDeps, pinOne, hl, ih]

theorem buildNewDeps_idem (pv : List (Line × Line)) (ds : List Line) :
    (buildNewDeps pv (buildNewDeps pv ds).1).1 = (buildNewDeps pv ds).1 := by
  induction ds with
  | nil => rfl
  | cons d ds ih =>
    show (buildNewDeps pv ((pinOne pv d).1 :: (buildNewDeps pv ds).1)).1 = _
    simp [buildNewDeps, pinOne_fst_idem, ih]

theorem startsWith_fmtItem (i d : Line) :
    startsWith (i ++ "  -".data) (fmtItem i d) = true := by
  have he : fmtItem i d = i ++ ("  -".data ++ (" \"".data ++ (d ++ "\"\n".data))) := by
    simp [fmtItem]
  rw [he, startsWith_app_both]
  exact startsWith_self_app _ _

/-! Facts about the direct-parse requirements loop. -/

theorem parseReqLines_err (ls : List Line) (l : Line) (hl : l ∈ ls)
    (hb1 : skipCond (pyStrip l) = false) (hb2 : reqExtract (pyStrip l) = none) :
    ∃ l2, l2 ∈ ls ∧ skipCond (pyStrip l2) = false ∧ reqExtract (pyStrip l2) = none
      ∧ ∀ acc, parseReqLines acc ls = Except.error (errMsg (pyStrip l2)) := by
  induction ls with
  | nil => cases hl
  | cons a ls ih =>
    by_cases hskip : skipCond (pyStrip a) = true
    · have hla : l ≠ a := by
        intro he
        rw [he] at hb1
        rw [hb1] at hskip
        cases hskip
      have hl' : l ∈ ls := by
        cases List.mem_cons.mp hl with
        | inl h => exact absurd h hla
        | inr h => exact h
      obtain ⟨l2, h1, h2, h3, h4⟩ := ih hl'
      refine ⟨l2, List.mem_cons_of_mem _ h1, h2, h3, fun acc => ?_⟩
      simp only [parseReqLines, hskip, if_true]
      exact h4 acc
    · have hskip' : skipCond (pyStrip a) = false := by
        cases hsc : skipCond (pyStrip a) with
        | true => exact absurd hsc hskip
        | false => rfl
      cases hre : reqExtract (pyStrip a) with
      | none =>
        refine ⟨a, List.mem_cons_self _ _, hskip', hre, fun acc => ?_⟩
        simp [parseReqLines, hskip', hre]
      | some nv =>
        obtain ⟨n, v⟩ := nv
        have hla : l ≠ a := by
          intro he
          rw [he] at hb2
          rw [hb2] at hre
          cases hre
        have hl' : l ∈ ls := by
          cases List.mem_cons.mp hl with
          | inl h => exact absurd h hla
          | inr h => exact h
        obtain ⟨l2, h1, h2, h3, h4⟩ := ih hl'
        refine ⟨l2, List.mem_cons_of_mem _ h1, h2, h3, fun acc => ?_⟩
        simp only [parseReqLines, hskip', if_false, Bool.false_eq_true, hre]
        exact h4 _

theorem parseReqLines_ok (ls : List Line)
    (h : ∀ l ∈ ls, skipCond (pyStrip l) = false → reqExtract (pyStrip l) ≠ none) :
    ∀ acc, ∃ acc2, parseReqLines acc ls = Except.ok acc2 := by
  induction ls with
  | nil => exact fun acc => ⟨acc, rfl⟩
  | cons a ls ih =>
    intro acc
    by_cases hskip : skipCond (pyStrip a) = true
    · obtain ⟨acc2, h2⟩ := ih (fun x hx => h x (List.mem_cons_of_mem _ hx)) acc
      refine ⟨acc2, ?_⟩
      simp only [parseReqLines, hskip, if_true]
      exact h2
    · have hskip' : skipCond (pyStrip a) = false := by
        cases hsc : skipCond (pyStrip a) with
        | true => exact absurd hsc hskip
        | false => rfl
      cases hre : reqExtract (pyStrip a) with
      | none => exact absurd hre (h a (List.mem_cons_self _ _) hskip')
      | some nv =>
        obtain ⟨n, v⟩ := nv
        obtain ⟨acc2, h2⟩ := ih (fun x hx => h x (List.mem_cons_of_mem _ hx)) (insertPV acc n v)
        refine ⟨acc2, ?_⟩
        simp only [parseReqLines, hskip', if_false, Bool.false_eq_true, hre]
        exact h2

theorem parseReqFiles_err (files : List (List Line)) (f : List Line) (l : Line)
    (hf : f ∈ files) (hl : l ∈ f)
    (hb1 : skipCond (pyStrip l) = false) (hb2 : reqExtract (pyStrip l) = none) :
    ∃ f2 l2, f2 ∈ files ∧ l2 ∈ f2 ∧ skipCond (pyStrip l2) = false
      ∧ reqExtract (pyStrip l2) = none
      ∧ ∀ acc, parseReqFiles acc files = Except.error (errMsg (pyStrip l2)) := by
  induction files with
  | nil => cases hf
  | cons g gs ih =>
    by_cases hg : ∃ x, x ∈ g ∧ skipCond (pyStrip x) = false ∧ reqExtract (pyStrip x) = none
    · obtain ⟨x, hx, hbx1, hbx2⟩ := hg
      obtain ⟨l2, h1, h2, h3, h4⟩ := parseReqLines_err g x hx hbx1 hbx2
      refine ⟨g, l2, List.mem_cons_self _ _, h1, h2, h3, fun acc => ?_⟩
      simp only [parseReqFiles, h4 acc]
    · have hok : ∀ x ∈ g, skipCond (pyStrip x) = false → reqExtract (pyStrip x) ≠ none :=
        fun x hx hsc hre => hg ⟨x, hx, hsc, hre⟩
      have hf' : f ∈ gs := by
        cases List.mem_cons.mp hf with
        | inl he => exact absurd ⟨l, he ▸ hl, hb1, hb2⟩ hg
        | inr hm => exact hm
      obtain ⟨f2, l2, h1, h2, h3, h4, h5⟩ := ih hf'
      refine ⟨f2, l2, List.mem_cons_of_mem _ h1, h2, h3, h4, fun acc => ?_⟩
      obtain ⟨acc2, hacc2⟩ := parseReqLines_ok g hok acc
      simp only [parseReqFiles, hacc2]
      exact h5 acc2

/-! The claims. -/

/-- C1 (code bug): with an empty new-dependency list, the rewriter does not
leave the line after the `additional_dependencies:` header in place; the
`in-deps` step consumes that line without yielding it, so the output is the
header alone and the following unrelated line is dropped, although the claim
says it must follow the header immediately with no line dropped. -/
theorem c1_line_after_header_dropped :
    updateDependencies [] ["additional_dependencies:\n".data, "b: 2\n".data]
      = ["additional_dependencies:\n".data]
  ∧ updateDependencies [] ["additional_dependencies:\n".data, "b: 2\n".data]
      ≠ ["additional_dependencies:\n".data, "b: 2\n".data] := by decide

/-- C2: for any specifier, the name is the part before the first `=`; a name
present in the version map is rewritten to exactly `name==version` (and two
specifiers with the same name get the same pinned output, whatever their
version/extras text), while a name absent from the map keeps the specifier
byte-identical and produces exactly the one diagnostic line naming it. -/
theorem c2_pin_rule (pv : List (Line × Line)) (dep : Line) :
    (∀ v, lookupPV pv (depName dep) = some v →
        pinOne pv dep = (depName dep ++ "==".data ++ v, []))
  ∧ (lookupPV pv (depName dep) = none →
        pinOne pv dep = (dep, [diagMsg (depName dep)]))
  ∧ (∀ dep2, depName dep2 = depName dep →
        ∀ v, lookupPV pv (depName dep) = some v →
        (pinOne pv dep2).1 = (pinOne pv dep).1) := by
  refine ⟨fun v hv => ?_, fun hv => ?_, fun dep2 hd v hv => ?_⟩
  · simp only [pinOne, hv]
  · simp only [pinOne, hv]
  · simp only [pinOne, hd, hv]

/-- Witness for C2 at the concrete scenario of the spec: `types-PyYAML` is in the
map and gets `types-PyYAML==6.0.1`; `types-requests==2.0.0` is not (its name
`types-requests` is absent) and is kept with one diagnostic. -/
theorem c2_pin_rule_w :
    pinOne [("types-PyYAML".data, "6.0.1".data)] "types-PyYAML".data
      = ("types-PyYAML==6.0.1".data, [])
  ∧ pinOne [("types-PyYAML".data, "6.0.1".data)] "types-requests==2.0.0".data
      = ("types-requests==2.0.0".data, [diagMsg "types-requests".data]) := by
  constructor
  · have h := (c2_pin_rule [("types-PyYAML".data, "6.0.1".data)] "types-PyYAML".data).1
      "6.0.1".data (by decide)
    rw [h]
    decide
  · have h := (c2_pin_rule [("types-PyYAML".data, "6.0.1".data)]
      "types-requests==2.0.0".data).2.1 (by decide)
    rw [h]
    decide

/-- C3 counterexample: the line `foo == 1.2.3` has whitespace around `==`
inside the pin, is neither blank nor a comment, and yet is accepted by the
parser (the regex is `^(\S+)\s*==\s*(\S+)$`, which allows that whitespace),
not treated as a fatal error as the claim requires. -/
theorem c3_spaces_around_eq_accepted :
    pyStrip "foo == 1.2.3\n".data = "foo".data ++ " == ".data ++ "1.2.3".data
  ∧ skipCond (pyStrip "foo == 1.2.3\n".data) = false
  ∧ parseRequirements [["foo == 1.2.3\n".data]]
      = Except.ok [("foo".data, "1.2.3".data)] :=
  ⟨by decide, by decide, rfl⟩

/-- C3 (amended): in direct-parse mode every stripped requirements line that
is not blank and not a `#` comment must match `name`, optional whitespace,
`==`, optional whitespace, `version` (name and version nonempty and
whitespace-free); if any line fails to match, the run fails fatally with an
error naming a (stripped) offending line, and no output is produced. -/
theorem c3_direct_parse_fatal (files : List (List Line)) (f : List Line) (l : Line)
    (hf : f ∈ files) (hl : l ∈ f)
    (hb1 : skipCond (pyStrip l) = false) (hb2 : reqExtract (pyStrip l) = none) :
    ∃ f2 l2, f2 ∈ files ∧ l2 ∈ f2 ∧ skipCond (pyStrip l2) = false
      ∧ reqExtract (pyStrip l2) = none
      ∧ parseRequirements files = Except.error (errMsg (pyStrip l2))
      ∧ ∀ extract cfg, runNoInstall files extract cfg
          = Except.error (errMsg (pyStrip l2)) := by
  obtain ⟨f2, l2, h1, h2, h3, h4, h5⟩ := parseReqFiles_err files f l hf hl hb1 hb2
  refine ⟨f2, l2, h1, h2, h3, h4, h5 [], fun extract cfg => ?_⟩
  simp only [runNoInstall, parseRequirements, h5 []]

/-- Witness for C3 at the concrete scenario of the spec: a file with `foo==1.2.3`,
a blank line, the comment `# bar==9` and the malformed `bar~=9` makes the
direct-parse run fail with no output. -/
theorem c3_direct_parse_fatal_w :
    isErr (runNoInstall [["foo==1.2.3\n".data, "\n".data, "# bar==9\n".data, "bar~=9\n".data]]
      (Except.ok []) []) = true := by
  obtain ⟨f2, l2, h1, h2, h3, h4, h5, h6⟩ :=
    c3_direct_parse_fatal
      [["foo==1.2.3\n".data, "\n".data, "# bar==9\n".data, "bar~=9\n".data]]
      ["foo==1.2.3\n".data, "\n".data, "# bar==9\n".data, "bar~=9\n".data]
      "bar~=9\n".data (by decide) (by decide) (by decide) (by decide)
  rw [h6 (Except.ok []) []]
  rfl

/-- C4 (code bug): in non-in-place mode the diagnostics are printed to
`sys.stdout`, the same stream that then receives the rewritten output, so the
stream carrying the rewritten output does contain a diagnostic line, contrary
to the claim that diagnostics go to a distinct stream in every run. -/
theorem c4_diag_printed_to_stdout :
    stdoutNonInPlace [] ["types-requests".data] ["repos:\n".data]
      = [diagMsg "types-requests".data, "repos:\n".data]
  ∧ diagMsg "types-requests".data
      ∈ stdoutNonInPlace [] ["types-requests".data] ["repos:\n".data] := by decide

/-- C5 (code bug): with an empty original list block, the first line after the
end of the block (here `    args: []`, right after the header) is dropped by
the `in-deps` step instead of being passed through byte-for-byte. -/
theorem c5_line_after_empty_block_dropped :
    updateDependencies []
        ["repos:\n".data, "    additional_dependencies:\n".data, "    args: []\n".data]
      = ["repos:\n".data, "    additional_dependencies:\n".data]
  ∧ "    args: []\n".data ∉ updateDependencies []
        ["repos:\n".data, "    additional_dependencies:\n".data, "    args: []\n".data] := by
  decide

/-- C6: idempotence of the full rewrite.  For a file made of non-header lines,
the header, a nonempty original item block and a tail, pinning the extracted
list and rewriting, then extracting the (textually present) new list from the
output, pinning it again with the same map and rewriting again, reproduces
the first output exactly. -/
theorem c6_rewrite_idempotent (pv : List (Line × Line))
    (deps pre items tail : List Line) (h : Line)
    (hdeps : deps ≠ [])
    (hpre : ∀ l ∈ pre, pyStrip l ≠ depHeader)
    (hh : pyStrip h = depHeader)
    (hitems : ∀ l ∈ items, startsWith (indentOf h ++ "  -".data) l = true)
    (hne : items ≠ [])
    (htail : ∀ t ∈ tail.take 1, startsWith (indentOf h ++ "  -".data) t = false) :
    updateDependencies (buildNewDeps pv (buildNewDeps pv deps).1).1
        (updateDependencies (buildNewDeps pv deps).1 (pre ++ h :: (items ++ tail)))
      = updateDependencies (buildNewDeps pv deps).1 (pre ++ h :: (items ++ tail)) := by
  rw [buildNewDeps_idem]
  rw [rewrite_shape _ pre items tail h hpre hh hitems hne htail]
  apply rewrite_shape _ pre _ tail h hpre hh
  · intro l hli
    obtain ⟨d, hd, rfl⟩ := List.mem_map.mp hli
    exact startsWith_fmtItem _ _
  · intro hmap
    have hnil : (buildNewDeps pv deps).1 = [] := List.map_eq_nil_iff.mp hmap
    have hlen := buildNewDeps_length pv deps
    rw [hnil] at hlen
    exact hdeps (List.eq_nil_of_length_eq_zero hlen.symm)
  · exact htail

/-- Witness for C6 at a concrete file and version map. -/
theorem c6_rewrite_idempotent_w :
    updateDependencies
        (buildNewDeps [("types-PyYAML".data, "6.0.1".data)]
          (buildNewDeps [("types-PyYAML".data, "6.0.1".data)] ["types-PyYAML".data]).1).1
        (updateDependencies
          (buildNewDeps [("types-PyYAML".data, "6.0.1".data)] ["types-PyYAML".data]).1
          (["repos:\n".data]
            ++ "  additional_dependencies:\n".data
              :: (["    - types-PyYAML\n".data] ++ ["next:\n".data])))
      = updateDependencies
          (buildNewDeps [("types-PyYAML".data, "6.0.1".data)] ["types-PyYAML".data]).1
          (["repos:\n".data]
            ++ "  additional_dependencies:\n".data
              :: (["    - types-PyYAML\n".data] ++ ["next:\n".data])) :=
  c6_rewrite_idempotent [("types-PyYAML".data, "6.0.1".data)] ["types-PyYAML".data]
    ["repos:\n".data] ["    - types-PyYAML\n".data] ["next:\n".data]
    "  additional_dependencies:\n".data
    (by decide) (by decide) (by decide) (by decide) (by decide) (by decide)

/-- C7: the new dependency list is the elementwise image of the original
list — same length, same relative order, no entries added or removed. -/
theorem c7_same_length_and_order (pv : List (Line × Line)) (deps : List Line) :
    (buildNewDeps pv deps).1.length = deps.length
  ∧ (buildNewDeps pv deps).1 = deps.map (fun d => (pinOne pv d).1) :=
  ⟨buildNewDeps_length pv deps, buildNewDeps_fst pv deps⟩

/-- C8: in the in-place mode, a fatal run (resolver failure or
structured-extraction failure) leaves the configuration file untouched; the
temporary file is gone at the end of every run; and the copy onto the
configuration file occurs only in the trace that first writes the complete
rewritten text to the temporary file. -/
theorem c8_in_place_safety (resolver : Except Line (List (Line × Line)))
    (extract : Except Line (List Line)) (cfg : List Line) :
    (fatalRun resolver extract = true → (inPlaceRun resolver extract cfg).config = cfg)
  ∧ (inPlaceRun resolver extract cfg).temp = none
  ∧ (FSEvent.copyTempToConfig ∈ inPlaceTrace resolver extract cfg →
      ∃ pv deps, resolver = Except.ok pv ∧ extract = Except.ok deps
        ∧ inPlaceTrace resolver extract cfg
            = [FSEvent.createTemp, FSEvent.writeTemp (doRewrite pv deps cfg).1,
               FSEvent.copyTempToConfig, FSEvent.removeTemp]
        ∧ (inPlaceRun resolver extract cfg).config = (doRewrite pv deps cfg).1) := by
  cases resolver with
  | error e =>
    refine ⟨fun _ => rfl, rfl, fun hc => ?_⟩
    simp [inPlaceTrace] at hc
  | ok pv =>
    cases extract with
    | error e =>
      refine ⟨fun _ => rfl, rfl, fun hc => ?_⟩
      simp [inPlaceTrace] at hc
    | ok deps =>
      refine ⟨fun hf => ?_, rfl, fun hc => ⟨pv, deps, rfl, rfl, rfl, rfl⟩⟩
      simp [fatalRun] at hf

/-- Witness for C8: a pin-parse failure (resolver error) in in-place mode
leaves the configuration file as it was and no temporary file behind. -/
theorem c8_in_place_safety_w :
    (inPlaceRun (Except.error "unable to parse requirement: bar~=9".data)
        (Except.ok ["a".data]) ["x: 1\n".data]).config = ["x: 1\n".data]
  ∧ (inPlaceRun (Except.error "unable to parse requirement: bar~=9".data)
        (Except.ok ["a".data]) ["x: 1\n".data]).temp = none :=
  ⟨(c8_in_place_safety (Except.error "unable to parse requirement: bar~=9".data)
      (Except.ok ["a".data]) ["x: 1\n".data]).1 (by decide),
   (c8_in_place_safety (Except.error "unable to parse requirement: bar~=9".data)
      (Except.ok ["a".data]) ["x: 1\n".data]).2.1⟩

/-- C9 counterexample: for the line `"\t additional_dependencies:\n"` the
scanner enters `in-deps` recording an indentation of one space (the space
inside the leading whitespace), while the count of leading space characters
of the line is zero — the line starts with a tab. -/
theorem c9_tab_indent_cex :
    pyStrip "\t additional_dependencies:\n".data = depHeader
  ∧ (handle (initUD []) "\t additional_dependencies:\n".data).1.state = UDState.inDeps
  ∧ (handle (initUD []) "\t additional_dependencies:\n".data).1.indent.length = 1
  ∧ ("\t additional_dependencies:\n".data.takeWhile (fun c => c == ' ')).length = 0 := by
  decide

/-- C9 (amended): on the header line the recorded indentation is the number
of space characters in the right-stripped line, which equals the number of
spaces inside the leading whitespace of the line; when the leading whitespace
consists only of spaces this is the count of leading space characters.  That
frozen value formats every emitted item (base indent plus two spaces, via
`fmtItem`) and recognizes the end of the old list (the `startsWith` bound on
the item block and on the first tail line). -/
theorem c9_recorded_indent (nd pre items tail : List Line) (h : Line)
    (hpre : ∀ l ∈ pre, pyStrip l ≠ depHeader)
    (hh : pyStrip h = depHeader)
    (hitems : ∀ l ∈ items, startsWith (indentOf h ++ "  -".data) l = true)
    (hne : items ≠ [])
    (htail : ∀ t ∈ tail.take 1, startsWith (indentOf h ++ "  -".data) t = false) :
    (handle (initUD nd) h).1.indent = indentOf h
  ∧ (indentOf h).length = (h.takeWhile isWs).count ' '
  ∧ ((h.takeWhile isWs).all (fun c => c == ' ') = true →
      (indentOf h).length = (h.takeWhile (fun c => c == ' ')).length)
  ∧ updateDependencies nd (pre ++ h :: (items ++ tail))
      = pre ++ h :: (nd.map (fmtItem (indentOf h)) ++ tail) := by
  have hcount : (indentOf h).length = (h.takeWhile isWs).count ' ' := by
    have hr : pyRstrip h = h.takeWhile isWs ++ depHeader :=
      pyRstrip_of_strip h depHeader hh (by decide)
    unfold indentOf
    rw [List.length_replicate, hr, List.count_append]
    have : depHeader.count ' ' = 0 := by decide
    rw [this]
    omega
  refine ⟨?_, hcount, fun hall => ?_, rewrite_shape nd pre items tail h hpre hh hitems hne htail⟩
  · have he := handle_pre_header (initUD nd) h rfl hh
    rw [he]
  · rw [hcount, takeWhile_space_of_all h hall]
    have : ∀ b ∈ h.takeWhile isWs, ' ' = b := by
      intro b hb
      have hbs := List.all_eq_true.mp hall b hb
      exact (eq_of_beq hbs).symm
    exact List.count_eq_length.mpr this

/-- Witness for C9 at a concrete header line indented by two spaces. -/
theorem c9_recorded_indent_w :
    (handle (initUD ["a".data]) "  additional_dependencies:\n".data).1.indent
        = indentOf "  additional_dependencies:\n".data
  ∧ (indentOf "  additional_dependencies:\n".data).length
        = ("  additional_dependencies:\n".data.takeWhile isWs).count ' '
  ∧ (("  additional_dependencies:\n".data.takeWhile isWs).all (fun c => c == ' ') = true →
      (indentOf "  additional_dependencies:\n".data).length
        = ("  additional_dependencies:\n".data.takeWhile (fun c => c == ' ')).length)
  ∧ updateDependencies ["a".data]
        (["repos:\n".data]
          ++ "  additional_dependencies:\n".data
            :: (["    - x\n".data] ++ ["next:\n".data]))
      = ["repos:\n".data]
          ++ "  additional_dependencies:\n".data
            :: (["a".data].map (fmtItem (indentOf "  additional_dependencies:\n".data))
                ++ ["next:\n".data]) :=
  c9_recorded_indent ["a".data] ["repos:\n".data] ["    - x\n".data] ["next:\n".data]
    "  additional_dependencies:\n".data
    (by decide) (by decide) (by decide) (by decide) (by decide)

/-- C10: a specifier written with a comparison operator whose first character
`c` is `>`, `<`, `~` or `!` and whose second character is `=` gets a derived
name that still contains `c`; since no key of a version map built from plain
package names contains `c`, the lookup always misses, so the specifier is
kept byte-identical with a diagnostic and is never re-pinned. -/
theorem c10_comparator_in_derived_name (pv : List (Line × Line)) (n r : Line) (c : Char)
    (hc : c = '>' ∨ c = '<' ∨ c = '~' ∨ c = '!')
    (hn : ∀ ch ∈ n, (ch != '=') = true)
    (hkeys : ∀ p ∈ pv, c ∉ p.1) :
    depName (n ++ c :: '=' :: r) = n ++ [c]
  ∧ pinOne pv (n ++ c :: '=' :: r) = (n ++ c :: '=' :: r, [diagMsg (n ++ [c])]) := by
  have hcne : (c != '=') = true := by
    rcases hc with h | h | h | h <;> subst h <;> decide
  have hdn : depName (n ++ c :: '=' :: r) = n ++ [c] := by
    unfold depName
    rw [takeWhile_app_all _ n _ hn]
    rw [List.takeWhile_cons _ _ _, hcne, if_pos rfl]
    rw [List.takeWhile_cons _ _ _]
    simp
  have hlk : lookupPV pv (n ++ [c]) = none := by
    induction pv with
    | nil => rfl
    | cons p ps ih =>
      obtain ⟨k, v⟩ := p
      have hck : c ∉ k := hkeys (k, v) (List.mem_cons_self _ _)
      have hkne : k ≠ n ++ [c] := by
        intro he
        apply hck
        rw [he]
        simp
      simp only [lookupPV, if_neg hkne]
      exact ih (fun q hq => hkeys q (List.mem_cons_of_mem _ hq))
  refine ⟨hdn, ?_⟩
  simp only [pinOne, hdn, hlk]

/-- Witness for C10: `types-PyYAML>=6.0` derives the name `types-PyYAML>`,
misses a map whose key is the plain name `types-PyYAML`, and is preserved
with a diagnostic naming `types-PyYAML>`. -/
theorem c10_comparator_in_derived_name_w :
    pinOne [("types-PyYAML".data, "6.0.1".data)] "types-PyYAML>=6.0".data
      = ("types-PyYAML>=6.0".data, [diagMsg "types-PyYAML>".data]) := by
  have he : "types-PyYAML>=6.0".data
      = "types-PyYAML".data ++ '>' :: '=' :: "6.0".data := by decide
  have h := (c10_comparator_in_derived_name [("types-PyYAML".data, "6.0.1".data)]
      "types-PyYAML".data "6.0".data '>' (Or.inl rfl) (by decide) (by decide)).2
  rw [he, h]
  decide
